import Mathlib

/-
Verification of the Cultural Algorithm cloud-scheduling core.

Shallow embedding of `cloud_environment.py` and `cultural_algorithm.py`:
Python floats are modelled as rationals, Python lists as Lean lists,
raised exceptions as `none` in an `Option` result, and every call to the
`random` module as an explicitly passed draw (a rational for
`random.random()`, a natural number consumed by the modular `randint`
model), so that "for every random stream" becomes a universal quantifier.
-/

namespace CloudSim

/-- A computing task (`Task` in `cloud_environment.py`): identifier and length. -/
structure Task where
  id : ℤ
  length : ℚ
deriving DecidableEq

/-- A cloud resource (`Resource` in `cloud_environment.py`):
identifier, speed and cost per unit time. -/
structure Resource where
  id : ℤ
  speed : ℚ
  cost : ℚ
deriving DecidableEq

/-- Resolve a Python list index of signed integer `i` against a list of
length `len`: non-negative indices address from the front, negative ones
from the back, anything else raises `IndexError` (modelled as `none`). -/
def pyResolve (len : ℕ) (i : ℤ) : Option ℕ :=
  if 0 ≤ i then
    (if i < (len : ℤ) then some i.toNat else none)
  else
    (if 0 ≤ i + (len : ℤ) then some (i + (len : ℤ)).toNat else none)

/-- Python `l[i]` for a signed index. -/
def pyGet {α : Type} (l : List α) (i : ℤ) : Option α :=
  (pyResolve l.length i).bind fun j => l.get? j

/-- The `(task.id, index)` pairs of a task list, indices starting at `n`
(the content of the comprehension `{task.id: idx for idx, task in enumerate(tasks)}`). -/
def idPairs : ℕ → List Task → List (ℤ × ℕ)
  | _, [] => []
  | n, t :: ts => (t.id, n) :: idPairs (n + 1) ts

/-- First-match lookup in an association list. -/
def lookupId : List (ℤ × ℕ) → ℤ → Option ℕ
  | [], _ => none
  | (k, v) :: rest, key => if key = k then some v else lookupId rest key

/-- The dict `task_id_to_index` of `simulate`: on duplicate ids the later
binding wins, which first-match lookup on the reversed pair list captures. -/
def taskIdToIndex (tasks : List Task) : List (ℤ × ℕ) :=
  (idPairs 0 tasks).reverse

/-- One task's contribution inside the loop of `simulate`: resolve the task's
index through the id map, read the assignment entry there (Python raises when
it is past the end), fetch the resource by Python indexing, and divide.
A zero speed models Python's `ZeroDivisionError`. -/
def taskContrib (resources : List Resource) (assignment : List ℤ)
    (m : List (ℤ × ℕ)) (t : Task) : Option (ℚ × ℚ) :=
  (lookupId m t.id).bind fun ti =>
    (assignment.get? ti).bind fun j =>
      (pyGet resources j).bind fun r =>
        if r.speed = 0 then none
        else some (t.length / r.speed, t.length / r.speed * r.cost)

/-- The accumulation loop of `simulate` over the task list. -/
def simAccum (resources : List Resource) (assignment : List ℤ)
    (m : List (ℤ × ℕ)) : ℚ × ℚ → List Task → Option (ℚ × ℚ)
  | acc, [] => some acc
  | acc, t :: ts =>
    (taskContrib resources assignment m t).bind fun c =>
      simAccum resources assignment m (acc.1 + c.1, acc.2 + c.2) ts

/-- The function `simulate(tasks, resources, assignment)` of `cloud_environment.py`:
returns `(total_time, total_cost)`, or `none` when the Python code raises. -/
def simulate (tasks : List Task) (resources : List Resource)
    (assignment : List ℤ) : Option (ℚ × ℚ) :=
  simAccum resources assignment (taskIdToIndex tasks) (0, 0) tasks

/-- The objective dispatch of `Individual.evaluate_fitness`
(`cultural_algorithm.py` lines 40-49), as a function of the raw totals.
The unknown-objective branch models `raise ValueError(...)`. -/
def evaluateFitnessFrom (objective : String) (total_time total_cost : ℚ) : Option ℚ :=
  if objective = "cost" then some (1 / (1 + total_cost))
  else if objective = "time" then some (1 / (1 + total_time))
  else if objective = "weighted" then
    let normalized_time := total_time / 1000
    let normalized_cost := total_cost / 10000
    some (1 / (1 + 0.4 * normalized_time + 0.6 * normalized_cost))
  else none

/-- The full `Individual.evaluate_fitness`: simulate, then apply the objective. -/
def evaluate_fitness (tasks : List Task) (resources : List Resource)
    (assignment : List ℤ) (objective : String) : Option ℚ :=
  match simulate tasks resources assignment with
  | none => none
  | some tc => evaluateFitnessFrom objective tc.1 tc.2

/-- Python `int(x)` on a float: truncation toward zero. -/
def pyInt (q : ℚ) : ℤ := if 0 ≤ q then ⌊q⌋ else ⌈q⌉

/-- Python `random.randint(lo, hi)`: raises (`none`) on an empty range, otherwise
returns a value in `[lo, hi]` determined by the consumed draw `n`. -/
def randint (lo hi : ℤ) (n : ℕ) : Option ℤ :=
  if hi < lo then none else some (lo + (n : ℤ) % (hi - lo + 1))

/-- Python `random.choice(l)`: raises on an empty list. -/
def pychoice {α : Type} (l : List α) (n : ℕ) : Option α :=
  l.get? (n % l.length)

/-- Python `random.sample(l, k)`: `k` draws without replacement, each draw picking a
remaining element by index; raises when the pool is exhausted (`k > len(l)`). -/
def pysample {α : Type} : List α → ℕ → (ℕ → ℕ) → Option (List α)
  | _, 0, _ => some []
  | l, k + 1, f =>
    match l.get? (f 0 % l.length) with
    | none => none
    | some x =>
      match pysample (l.eraseIdx (f 0 % l.length)) k (fun i => f (i + 1)) with
      | none => none
      | some xs => some (x :: xs)

/-- Well-formedness of an assignment: one entry per task, every entry a
valid resource index. -/
def validAssignment (numTasks numResources : ℕ) (a : List ℤ) : Prop :=
  a.length = numTasks ∧ ∀ e ∈ a, 0 ≤ e ∧ e < (numResources : ℤ)

instance (numTasks numResources : ℕ) (a : List ℤ) :
    Decidable (validAssignment numTasks numResources a) := by
  unfold validAssignment; infer_instance

/-- The random assignment built per individual by `initialize_population`:
`[random.randint(0, len(resources)-1) for _ in range(len(tasks))]`. -/
def randomAssignment (numResources : ℕ) : ℕ → (ℕ → ℕ) → Option (List ℤ)
  | 0, _ => some []
  | n + 1, f =>
    match randint 0 ((numResources : ℤ) - 1) (f 0),
        randomAssignment numResources n (fun i => f (i + 1)) with
    | some v, some rest => some (v :: rest)
    | _, _ => none

/-- The operator `CulturalAlgorithm.crossover`: the draw `u` models the gate
`random.random() > self.crossover_rate` (copies of the parents when it
exceeds the rate), `r` the draw behind `random.randint(1, len(tasks)-1)`,
which raises when the task count is below 2. -/
def crossover (crossover_rate : ℚ) (numTasks : ℕ) (p1 p2 : List ℤ)
    (u : ℚ) (r : ℕ) : Option (List ℤ × List ℤ) :=
  if crossover_rate < u then some (p1, p2)
  else
    match randint 1 ((numTasks : ℤ) - 1) r with
    | none => none
    | some point =>
      some (p1.take point.toNat ++ p2.drop point.toNat,
            p2.take point.toNat ++ p1.drop point.toNat)

/-- The body of the `for _ in range(num_mutations)` loop of
`CulturalAlgorithm.mutate`: each pass draws a task position and a new
resource index and overwrites that position. -/
def mutateLoop (numTasks numResources : ℕ) :
    ℕ → List ℤ → (ℕ → ℕ) → Option (List ℤ)
  | 0, a, _ => some a
  | n + 1, a, f =>
    match randint 0 ((numTasks : ℤ) - 1) (f 0),
        randint 0 ((numResources : ℤ) - 1) (f 1) with
    | some ti, some v =>
      mutateLoop numTasks numResources n (a.set ti.toNat v) (fun i => f (i + 2))
    | _, _ => none

/-- The operator `CulturalAlgorithm.mutate`: gate on the mutation rate, then draw
`num_mutations` in `[1, max(1, len(tasks) // 4)]` and run the loop. -/
def mutate (mutation_rate : ℚ) (numTasks numResources : ℕ) (a : List ℤ)
    (u : ℚ) (nm : ℕ) (f : ℕ → ℕ) : Option (List ℤ) :=
  if mutation_rate < u then some a
  else
    match randint 1 (max 1 ((numTasks / 4 : ℕ) : ℤ)) nm with
    | none => none
    | some n => mutateLoop numTasks numResources n.toNat a f

/-- An `Individual` of the population space: its assignment buffer and the
cached fitness (the `tasks`/`resources` references and the raw score pair
are shared context and carry no algorithmic content). -/
structure Individual where
  assignment : List ℤ
  fitness : ℚ
deriving DecidableEq

/-- One entry of `normative_ranges`: the `lower`/`upper`/`preferred` dict. -/
structure NormativeRange where
  lower : ℤ
  upper : ℤ
  preferred : List ℤ
deriving DecidableEq

/-- The `BeliefSpace` object: situational knowledge (`best_individual`,
`best_fitness`, the latter starting at `float('-inf')`, modelled by `⊥`),
normative knowledge and the domain statistics dict. -/
structure BeliefSpace where
  num_tasks : ℕ
  num_resources : ℕ
  best_individual : Option Individual
  best_fitness : WithBot ℚ
  normative_ranges : List NormativeRange
  avg_fitness : ℚ
  fitness_variance : ℚ
  resource_usage : List ℕ
deriving DecidableEq

/-- Python `list(range(n))` as signed integers. -/
def rangeZ (n : ℕ) : List ℤ := List.map (fun i : ℕ => (i : ℤ)) (List.range n)

/-- The constructor `BeliefSpace.__init__`. -/
def BeliefSpace.init (num_tasks num_resources : ℕ) : BeliefSpace where
  num_tasks := num_tasks
  num_resources := num_resources
  best_individual := none
  best_fitness := ⊥
  normative_ranges :=
    List.replicate num_tasks ⟨0, (num_resources : ℤ) - 1, rangeZ num_resources⟩
  avg_fitness := 0
  fitness_variance := 0
  resource_usage := List.replicate num_resources 0

/-- Increment `l[j] += 1` at a resolved (non-negative, in-range) index. -/
def incrAt (l : List ℕ) (j : ℕ) : List ℕ := l.set j (l.getD j 0 + 1)

/-- The tally loop of the normative update at one task position: read each
accepted individual's entry there (raising past the end) and bump
`resource_counts` at that entry, with Python signed indexing. -/
def tallyCounts (ti : ℕ) : List Individual → List ℕ → Option (List ℕ)
  | [], counts => some counts
  | ind :: rest, counts =>
    (ind.assignment.get? ti).bind fun ridx =>
      (pyResolve counts.length ridx).bind fun j =>
        tallyCounts ti rest (incrAt counts j)

/-- Python `enumerate(resource_counts)` with a starting index. -/
def countsEnum : ℕ → List ℕ → List (ℕ × ℕ)
  | _, [] => []
  | i, c :: cs => (i, c) :: countsEnum (i + 1) cs

/-- The comprehension selecting the preferred resources: indices whose count
is at least `max_count * 0.5`. -/
def preferredOf (counts : List ℕ) (max_count : ℕ) : List ℤ :=
  ((countsEnum 0 counts).filter
    (fun p => decide ((max_count : ℚ) * 0.5 ≤ (p.2 : ℚ)))).map (fun p => (p.1 : ℤ))

/-- The `for task_idx in range(self.num_tasks)` loop of the normative update,
driven by a fuel of `num_tasks` steps and indexing into the ranges list
(raising when the list is shorter). `max(resource_counts)` on an empty list
raises, hence the `maximum?` case split. -/
def updateNormLoop (num_resources : ℕ) (accepted : List Individual) :
    ℕ → ℕ → List NormativeRange → Option (List NormativeRange)
  | 0, _, ranges => some ranges
  | fuel + 1, ti, ranges =>
    (ranges.get? ti).bind fun rng =>
      (tallyCounts ti accepted (List.replicate num_resources 0)).bind fun counts =>
        counts.max?.bind fun mx =>
          updateNormLoop num_resources accepted fuel (ti + 1)
            (ranges.set ti
              { rng with
                  preferred :=
                    if 0 < mx then preferredOf counts mx else rangeZ num_resources })

/-- One pass of the situational-knowledge fold: keep the stored pair unless
the accepted individual's fitness strictly exceeds the stored best. -/
def situationalStep (p : Option Individual × WithBot ℚ) (ind : Individual) :
    Option Individual × WithBot ℚ :=
  if p.2 < (ind.fitness : WithBot ℚ) then (some ind, (ind.fitness : WithBot ℚ)) else p

/-- The loop `for resource_idx in individual.assignment: usage[resource_idx] += 1`. -/
def usageAdd : List ℤ → List ℕ → Option (List ℕ)
  | [], u => some u
  | r :: rs, u =>
    (pyResolve u.length r).bind fun j => usageAdd rs (incrAt u j)

/-- The resource-usage recount over the whole population. -/
def resourceUsageLoop : List Individual → List ℕ → Option (List ℕ)
  | [], u => some u
  | ind :: rest, u =>
    (usageAdd ind.assignment u).bind fun u2 => resourceUsageLoop rest u2

/-- The method `BeliefSpace.update(population, accepted)`: early return on an empty
accepted list, then the situational fold, the normative per-position update,
and (for a non-empty population) the from-scratch domain statistics. -/
def BeliefSpace.update (bs : BeliefSpace) (population accepted : List Individual) :
    Option BeliefSpace :=
  if accepted = [] then some bs
  else
    let sit := accepted.foldl situationalStep (bs.best_individual, bs.best_fitness)
    (updateNormLoop bs.num_resources accepted bs.num_tasks 0 bs.normative_ranges).bind
      fun ranges2 =>
        if population = [] then
          some { bs with
                  best_individual := sit.1
                  best_fitness := sit.2
                  normative_ranges := ranges2 }
        else
          let fitnesses := population.map Individual.fitness
          let avg := fitnesses.sum / (population.length : ℚ)
          let variance :=
            (fitnesses.map (fun f => (f - avg) ^ 2)).sum / (population.length : ℚ)
          (resourceUsageLoop population (List.replicate bs.num_resources 0)).bind
            fun usage =>
              some { bs with
                      best_individual := sit.1
                      best_fitness := sit.2
                      normative_ranges := ranges2
                      avg_fitness := avg
                      fitness_variance := variance
                      resource_usage := usage }

/-- The situational-injection write loop of `BeliefSpace.influence`:
`individual.assignment[pos] = self.best_individual.assignment[pos]` for each
sampled position (reading past the best's buffer, or writing past the
child's, raises). -/
def setFromBest (best : List ℤ) : List ℕ → List ℤ → Option (List ℤ)
  | [], a => some a
  | p :: ps, a =>
    (best.get? p).bind fun v =>
      if p < a.length then setFromBest best ps (a.set p v) else none

/-- The per-position normative-injection loop of `BeliefSpace.influence`:
each position draws its 0.3-gate, and on success overwrites the position
with a uniform choice from that position's preferred list when non-empty. -/
def influenceNormLoop (ranges : List NormativeRange) :
    ℕ → ℕ → List ℤ → (ℕ → ℚ) → (ℕ → ℕ) → Option (List ℤ)
  | 0, _, a, _, _ => some a
  | n + 1, i, a, us, cs =>
    if us 0 < 0.3 then
      (ranges.get? i).bind fun rng =>
        if rng.preferred = [] then
          influenceNormLoop ranges n (i + 1) a (fun k => us (k + 1)) cs
        else
          (pychoice rng.preferred (cs 0)).bind fun v =>
            influenceNormLoop ranges n (i + 1) (a.set i v)
              (fun k => us (k + 1)) (fun k => cs (k + 1))
    else influenceNormLoop ranges n (i + 1) a (fun k => us (k + 1)) cs

/-- The method `BeliefSpace.influence(individual, influence_rate)`: outer gate `u1`,
situational injection gated on a stored best and `u2 < 0.2` (the draw is
taken only when a best exists, matching the short-circuit `and`), then the
normative loop over every position of the assignment. -/
def influence (bs : BeliefSpace) (a : List ℤ) (influence_rate : ℚ)
    (u1 u2 : ℚ) (ng : ℕ) (sampleDraws : ℕ → ℕ) (gateUs : ℕ → ℚ)
    (choiceDraws : ℕ → ℕ) : Option (List ℤ) :=
  if influence_rate < u1 then some a
  else
    match bs.best_individual with
    | some best =>
      if u2 < 0.2 then
        (randint 1 (max 1 ((a.length / 3 : ℕ) : ℤ)) ng).bind fun num_genes =>
          (pysample (List.range a.length) num_genes.toNat sampleDraws).bind
            fun positions =>
              (setFromBest best.assignment positions a).bind fun a2 =>
                influenceNormLoop bs.normative_ranges a2.length 0 a2 gateUs
                  choiceDraws
      else influenceNormLoop bs.normative_ranges a.length 0 a gateUs choiceDraws
    | none => influenceNormLoop bs.normative_ranges a.length 0 a gateUs choiceDraws

/-- Python slicing `l[:n]` for a signed bound. -/
def pySliceTo {α : Type} (l : List α) (n : ℤ) : List α :=
  if 0 ≤ n then l.take n.toNat else l.take (n + (l.length : ℤ)).toNat

/-- The elite prefix `initialize_population` hands to the first belief-space
update: `self.population[:int(self.population_size * self.acceptance_rate)]`
(no at-least-one floor, unlike `evolve`). -/
def initAccepted (population : List Individual) (population_size : ℤ)
    (acceptance_rate : ℚ) : List Individual :=
  pySliceTo population (pyInt ((population_size : ℚ) * acceptance_rate))

/-- The full `CulturalAlgorithm` object as built by `__init__`. -/
structure CulturalAlgorithm where
  tasks : List Task
  resources : List Resource
  population_size : ℤ
  mutation_rate : ℚ
  crossover_rate : ℚ
  elitism_count : ℤ
  objective : String
  max_generations : ℤ
  acceptance_rate : ℚ
  influence_rate : ℚ
  population : List Individual
  generation : ℕ
  best_fitness_history : List ℚ
  avg_fitness_history : List ℚ
  best_individual : Option Individual
  belief_space : BeliefSpace
deriving DecidableEq

/-- The constructor `CulturalAlgorithm.__init__`: attribute assignments and the fresh belief
space, nothing else — the body contains no checks and no raise. -/
def CulturalAlgorithm.init (tasks : List Task) (resources : List Resource)
    (population_size : ℤ) (mutation_rate crossover_rate : ℚ)
    (elitism_count : ℤ) (objective : String) (max_generations : ℤ)
    (acceptance_rate influence_rate : ℚ) : CulturalAlgorithm where
  tasks := tasks
  resources := resources
  population_size := population_size
  mutation_rate := mutation_rate
  crossover_rate := crossover_rate
  elitism_count := elitism_count
  objective := objective
  max_generations := max_generations
  acceptance_rate := acceptance_rate
  influence_rate := influence_rate
  population := []
  generation := 0
  best_fitness_history := []
  avg_fitness_history := []
  best_individual := none
  belief_space := BeliefSpace.init tasks.length resources.length

theorem randint_mem_of_eq_some {lo hi : ℤ} {n : ℕ} {v : ℤ}
    (h : randint lo hi n = some v) : lo ≤ v ∧ v ≤ hi := by
  unfold randint at h
  split at h
  · exact absurd h (by simp)
  · rename_i hle
    push_neg at hle
    have hpos : 0 < hi - lo + 1 := by omega
    have h1 : 0 ≤ (n : ℤ) % (hi - lo + 1) := Int.emod_nonneg _ (by omega)
    have h2 : (n : ℤ) % (hi - lo + 1) < hi - lo + 1 := Int.emod_lt_of_pos _ hpos
    have hv : v = lo + (n : ℤ) % (hi - lo + 1) := by
      simpa using h.symm
    omega

theorem randint_isSome_of_le {lo hi : ℤ} (n : ℕ) (h : lo ≤ hi) :
    randint lo hi n = some (lo + (n : ℤ) % (hi - lo + 1)) := by
  unfold randint
  rw [if_neg (by omega)]

/-- Well-formedness of a belief space relative to the problem dimensions:
any stored best individual is a valid assignment and every normative
preferred entry is a valid resource index. -/
def wellFormedBelief (numTasks numResources : ℕ) (bs : BeliefSpace) : Prop :=
  (∀ ind, bs.best_individual = some ind →
    validAssignment numTasks numResources ind.assignment) ∧
  ∀ rng ∈ bs.normative_ranges, ∀ v ∈ rng.preferred, 0 ≤ v ∧ v < (numResources : ℤ)

theorem randomAssignment_valid (numResources : ℕ) (hR : 1 ≤ numResources) :
    ∀ (numTasks : ℕ) (f : ℕ → ℕ), ∃ a,
      randomAssignment numResources numTasks f = some a ∧
      validAssignment numTasks numResources a := by
  intro numTasks
  induction numTasks with
  | zero =>
    intro f
    exact ⟨[], rfl, rfl, by simp⟩
  | succ n ih =>
    intro f
    obtain ⟨rest, hrest, hlen, hmem⟩ := ih (fun i => f (i + 1))
    have hle : (0 : ℤ) ≤ (numResources : ℤ) - 1 := by omega
    have hr := @randint_isSome_of_le 0 ((numResources : ℤ) - 1) (f 0) hle
    obtain ⟨hv0, hv1⟩ := randint_mem_of_eq_some hr
    refine ⟨(0 + (f 0 : ℤ) % ((numResources : ℤ) - 1 - 0 + 1)) :: rest, ?_, ?_, ?_⟩
    · unfold randomAssignment
      rw [hr, hrest]
    · simp [hlen]
    · intro e he
      rcases List.mem_cons.mp he with h | h
      · subst h; omega
      · exact hmem e h

theorem crossover_valid {numTasks numResources : ℕ} {rate : ℚ}
    {p1 p2 : List ℤ} {u : ℚ} {r : ℕ} {c1 c2 : List ℤ}
    (h1 : validAssignment numTasks numResources p1)
    (h2 : validAssignment numTasks numResources p2)
    (hc : crossover rate numTasks p1 p2 u r = some (c1, c2)) :
    validAssignment numTasks numResources c1 ∧
    validAssignment numTasks numResources c2 := by
  obtain ⟨hl1, hm1⟩ := h1
  obtain ⟨hl2, hm2⟩ := h2
  unfold crossover at hc
  split at hc
  · obtain ⟨rfl, rfl⟩ := Prod.mk.injEq .. ▸ Option.some.injEq .. ▸ hc
    exact ⟨⟨hl1, hm1⟩, ⟨hl2, hm2⟩⟩
  · cases hr : randint 1 ((numTasks : ℤ) - 1) r with
    | none => rw [hr] at hc; cases hc
    | some point =>
      rw [hr] at hc
      obtain ⟨hp1, hp2⟩ := randint_mem_of_eq_some hr
      have hpt : point.toNat ≤ numTasks := by omega
      have hinj := Option.some.injEq .. ▸ hc
      obtain ⟨he1, he2⟩ := Prod.mk.injEq .. ▸ hinj
      constructor
      · refine ⟨?_, ?_⟩
        · rw [← he1]; simp [hl1, hl2]; omega
        · intro e he
          rw [← he1] at he
          rcases List.mem_append.mp he with h | h
          · exact hm1 e (List.take_subset _ _ h)
          · exact hm2 e (List.drop_subset _ _ h)
      · refine ⟨?_, ?_⟩
        · rw [← he2]; simp [hl1, hl2]; omega
        · intro e he
          rw [← he2] at he
          rcases List.mem_append.mp he with h | h
          · exact hm2 e (List.take_subset _ _ h)
          · exact hm1 e (List.drop_subset _ _ h)

theorem set_valid {numTasks numResources : ℕ} {a : List ℤ} {j : ℕ} {v : ℤ}
    (ha : validAssignment numTasks numResources a)
    (hv0 : 0 ≤ v) (hv1 : v < (numResources : ℤ)) :
    validAssignment numTasks numResources (a.set j v) := by
  obtain ⟨hl, hm⟩ := ha
  refine ⟨by simp [hl], ?_⟩
  intro e he
  rcases List.mem_or_eq_of_mem_set he with h | h
  · exact hm e h
  · subst h; exact ⟨hv0, hv1⟩

theorem mutateLoop_valid {numTasks numResources : ℕ} :
    ∀ (n : ℕ) (a : List ℤ) (f : ℕ → ℕ) (a2 : List ℤ),
      validAssignment numTasks numResources a →
      mutateLoop numTasks numResources n a f = some a2 →
      validAssignment numTasks numResources a2 := by
  intro n
  induction n with
  | zero =>
    intro a f a2 ha h
    unfold mutateLoop at h
    cases h
    exact ha
  | succ n ih =>
    intro a f a2 ha h
    unfold mutateLoop at h
    cases hti : randint 0 ((numTasks : ℤ) - 1) (f 0) with
    | none => rw [hti] at h; cases h
    | some ti =>
      cases hv : randint 0 ((numResources : ℤ) - 1) (f 1) with
      | none => rw [hti, hv] at h; cases h
      | some v =>
        rw [hti, hv] at h
        obtain ⟨hv0, hv1⟩ := randint_mem_of_eq_some hv
        exact ih _ _ _ (set_valid ha hv0 (by omega)) h

theorem mutate_valid {numTasks numResources : ℕ} {mr : ℚ} {a : List ℤ}
    {u : ℚ} {nm : ℕ} {f : ℕ → ℕ} {a2 : List ℤ}
    (ha : validAssignment numTasks numResources a)
    (h : mutate mr numTasks numResources a u nm f = some a2) :
    validAssignment numTasks numResources a2 := by
  unfold mutate at h
  split at h
  · cases h; exact ha
  · cases hn : randint 1 (max 1 ((numTasks / 4 : ℕ) : ℤ)) nm with
    | none => rw [hn] at h; cases h
    | some n =>
      rw [hn] at h
      exact mutateLoop_valid _ _ _ _ ha h

theorem setFromBest_valid {numTasks numResources : ℕ} {best : List ℤ}
    (hbest : ∀ v ∈ best, 0 ≤ v ∧ v < (numResources : ℤ)) :
    ∀ (ps : List ℕ) (a a2 : List ℤ),
      validAssignment numTasks numResources a →
      setFromBest best ps a = some a2 →
      validAssignment numTasks numResources a2 := by
  intro ps
  induction ps with
  | nil =>
    intro a a2 ha h
    cases h
    exact ha
  | cons p rest ih =>
    intro a a2 ha h
    unfold setFromBest at h
    rw [Option.bind_eq_some] at h
    obtain ⟨v, hg, h⟩ := h
    by_cases hp : p < a.length
    · rw [if_pos hp] at h
      obtain ⟨hv0, hv1⟩ := hbest v (List.get?_mem hg)
      exact ih _ _ (set_valid ha hv0 hv1) h
    · rw [if_neg hp] at h
      cases h

theorem influenceNormLoop_valid {numTasks numResources : ℕ}
    {ranges : List NormativeRange}
    (hwf : ∀ rng ∈ ranges, ∀ v ∈ rng.preferred, 0 ≤ v ∧ v < (numResources : ℤ)) :
    ∀ (fuel i : ℕ) (a : List ℤ) (us : ℕ → ℚ) (cs : ℕ → ℕ) (a2 : List ℤ),
      validAssignment numTasks numResources a →
      influenceNormLoop ranges fuel i a us cs = some a2 →
      validAssignment numTasks numResources a2 := by
  intro fuel
  induction fuel with
  | zero =>
    intro i a us cs a2 ha h
    cases h
    exact ha
  | succ n ih =>
    intro i a us cs a2 ha h
    unfold influenceNormLoop at h
    by_cases hu : us 0 < 0.3
    · rw [if_pos hu, Option.bind_eq_some] at h
      obtain ⟨rng, hg, h⟩ := h
      by_cases hpref : rng.preferred = []
      · rw [if_pos hpref] at h
        exact ih _ _ _ _ _ ha h
      · rw [if_neg hpref, Option.bind_eq_some] at h
        obtain ⟨v, hv, h⟩ := h
        have hmem : v ∈ rng.preferred := List.get?_mem hv
        obtain ⟨hv0, hv1⟩ := hwf rng (List.get?_mem hg) v hmem
        exact ih _ _ _ _ _ (set_valid ha hv0 hv1) h
    · rw [if_neg hu] at h
      exact ih _ _ _ _ _ ha h

theorem influence_valid {numTasks numResources : ℕ} {bs : BeliefSpace}
    {a : List ℤ} {ir u1 u2 : ℚ} {ng : ℕ} {sd : ℕ → ℕ} {gu : ℕ → ℚ}
    {cd : ℕ → ℕ} {a2 : List ℤ}
    (hwf : wellFormedBelief numTasks numResources bs)
    (ha : validAssignment numTasks numResources a)
    (h : influence bs a ir u1 u2 ng sd gu cd = some a2) :
    validAssignment numTasks numResources a2 := by
  obtain ⟨hbest, hranges⟩ := hwf
  unfold influence at h
  by_cases hg1 : ir < u1
  · rw [if_pos hg1] at h
    cases h
    exact ha
  · rw [if_neg hg1] at h
    cases hb : bs.best_individual with
    | none =>
      simp only [hb] at h
      exact influenceNormLoop_valid hranges _ _ _ _ _ _ ha h
    | some best =>
      simp only [hb] at h
      by_cases hg2 : u2 < 0.2
      · rw [if_pos hg2, Option.bind_eq_some] at h
        obtain ⟨num_genes, hng, h⟩ := h
        rw [Option.bind_eq_some] at h
        obtain ⟨positions, hps, h⟩ := h
        rw [Option.bind_eq_some] at h
        obtain ⟨amid, hsf, h⟩ := h
        have hbv := (hbest best hb).2
        have hamid := setFromBest_valid hbv positions a amid ha hsf
        exact influenceNormLoop_valid hranges _ _ _ _ _ _ hamid h
      · rw [if_neg hg2] at h
        exact influenceNormLoop_valid hranges _ _ _ _ _ _ ha h

theorem rangeZ_mem {n : ℕ} {v : ℤ} (h : v ∈ rangeZ n) : 0 ≤ v ∧ v < (n : ℤ) := by
  unfold rangeZ at h
  simp only [List.mem_map, List.mem_range] at h
  obtain ⟨i, hi, rfl⟩ := h
  omega

theorem countsEnum_mem {p : ℕ × ℕ} :
    ∀ (cs : List ℕ) (n : ℕ), p ∈ countsEnum n cs → n ≤ p.1 ∧ p.1 < n + cs.length := by
  intro cs
  induction cs with
  | nil => intro n h; cases h
  | cons c rest ih =>
    intro n h
    unfold countsEnum at h
    rcases List.mem_cons.mp h with h | h
    · subst h; simp
    · have := ih (n + 1) h
      simp at this ⊢
      omega

theorem preferredOf_mem {counts : List ℕ} {mx : ℕ} {v : ℤ}
    (h : v ∈ preferredOf counts mx) : 0 ≤ v ∧ v < (counts.length : ℤ) := by
  unfold preferredOf at h
  obtain ⟨p, hp, rfl⟩ := List.mem_map.mp h
  have hmem := List.mem_filter.mp hp
  have := countsEnum_mem counts 0 hmem.1
  omega

theorem incrAt_length (l : List ℕ) (j : ℕ) : (incrAt l j).length = l.length := by
  simp [incrAt]

theorem tallyCounts_length {ti : ℕ} :
    ∀ (accepted : List Individual) (counts counts2 : List ℕ),
      tallyCounts ti accepted counts = some counts2 →
      counts2.length = counts.length := by
  intro accepted
  induction accepted with
  | nil =>
    intro counts counts2 h
    cases h
    rfl
  | cons ind rest ih =>
    intro counts counts2 h
    unfold tallyCounts at h
    rw [Option.bind_eq_some] at h
    obtain ⟨ridx, _, h⟩ := h
    rw [Option.bind_eq_some] at h
    obtain ⟨j, _, h⟩ := h
    have := ih _ _ h
    rw [this, incrAt_length]

theorem updateNormLoop_wf {numResources : ℕ} {accepted : List Individual} :
    ∀ (fuel ti : ℕ) (ranges ranges2 : List NormativeRange),
      (∀ rng ∈ ranges, ∀ v ∈ rng.preferred, 0 ≤ v ∧ v < (numResources : ℤ)) →
      updateNormLoop numResources accepted fuel ti ranges = some ranges2 →
      ∀ rng ∈ ranges2, ∀ v ∈ rng.preferred, 0 ≤ v ∧ v < (numResources : ℤ) := by
  intro fuel
  induction fuel with
  | zero =>
    intro ti ranges ranges2 hwf h
    cases h
    exact hwf
  | succ n ih =>
    intro ti ranges ranges2 hwf h
    unfold updateNormLoop at h
    rw [Option.bind_eq_some] at h
    obtain ⟨rng, _, h⟩ := h
    rw [Option.bind_eq_some] at h
    obtain ⟨counts, hcounts, h⟩ := h
    rw [Option.bind_eq_some] at h
    obtain ⟨mx, _, h⟩ := h
    have hclen : counts.length = numResources := by
      rw [tallyCounts_length accepted _ _ hcounts, List.length_replicate]
    refine ih _ _ _ ?_ h
    intro rng2 hmem v hv
    rcases List.mem_or_eq_of_mem_set hmem with hold | hnew
    · exact hwf rng2 hold v hv
    · subst hnew
      simp only at hv
      by_cases hmx : 0 < mx
      · rw [if_pos hmx] at hv
        have := preferredOf_mem hv
        omega
      · rw [if_neg hmx] at hv
        exact rangeZ_mem hv

theorem situationalFold_valid {numTasks numResources : ℕ} :
    ∀ (accepted : List Individual) (p : Option Individual × WithBot ℚ),
      (∀ ind, p.1 = some ind → validAssignment numTasks numResources ind.assignment) →
      (∀ ind ∈ accepted, validAssignment numTasks numResources ind.assignment) →
      ∀ ind, (accepted.foldl situationalStep p).1 = some ind →
        validAssignment numTasks numResources ind.assignment := by
  intro accepted
  induction accepted with
  | nil =>
    intro p hp _ ind h
    exact hp ind h
  | cons x rest ih =>
    intro p hp hacc ind h
    rw [List.foldl_cons] at h
    refine ih (situationalStep p x) ?_ (fun i hi => hacc i (List.mem_cons_of_mem _ hi)) ind h
    intro i hi
    unfold situationalStep at hi
    split at hi
    · cases hi
      exact hacc x (List.mem_cons_self _ _)
    · exact hp i hi

theorem beliefInit_wf (numTasks numResources : ℕ) :
    wellFormedBelief numTasks numResources (BeliefSpace.init numTasks numResources) := by
  constructor
  · intro ind h
    cases h
  · intro rng hmem v hv
    have := List.eq_of_mem_replicate hmem
    subst this
    exact rangeZ_mem hv

theorem beliefUpdate_wf {numTasks numResources : ℕ} {bs : BeliefSpace}
    {population accepted : List Individual} {bs2 : BeliefSpace}
    (hwf : wellFormedBelief numTasks numResources bs)
    (hacc : ∀ ind ∈ accepted, validAssignment numTasks numResources ind.assignment)
    (hres : bs.num_resources = numResources)
    (h : BeliefSpace.update bs population accepted = some bs2) :
    wellFormedBelief numTasks numResources bs2 := by
  obtain ⟨hbest, hranges⟩ := hwf
  unfold BeliefSpace.update at h
  by_cases hemp : accepted = []
  · rw [if_pos hemp] at h
    cases h
    exact ⟨hbest, hranges⟩
  · rw [if_neg hemp] at h
    simp only [Option.bind_eq_some] at h
    obtain ⟨ranges2, hnorm, h⟩ := h
    rw [hres] at hnorm
    have hr2 := updateNormLoop_wf _ _ _ _ hranges hnorm
    have hsit := situationalFold_valid accepted (bs.best_individual, bs.best_fitness)
      hbest hacc
    by_cases hpop : population = []
    · rw [if_pos hpop] at h
      cases h
      exact ⟨hsit, hr2⟩
    · rw [if_neg hpop] at h
      simp only [Option.bind_eq_some] at h
      obtain ⟨usage, _, h⟩ := h
      cases h
      exact ⟨hsit, hr2⟩

/-- The bundle of operator-level well-formedness facts for a problem with
`numTasks` tasks and `numResources` resources. -/
def operatorsPreserveValidity (numTasks numResources : ℕ) : Prop :=
  (∀ f : ℕ → ℕ, ∃ a, randomAssignment numResources numTasks f = some a ∧
    validAssignment numTasks numResources a) ∧
  (∀ (rate : ℚ) (p1 p2 : List ℤ) (u : ℚ) (r : ℕ) (c1 c2 : List ℤ),
    validAssignment numTasks numResources p1 →
    validAssignment numTasks numResources p2 →
    crossover rate numTasks p1 p2 u r = some (c1, c2) →
    validAssignment numTasks numResources c1 ∧
    validAssignment numTasks numResources c2) ∧
  (∀ (mr : ℚ) (a : List ℤ) (u : ℚ) (nm : ℕ) (f : ℕ → ℕ) (a2 : List ℤ),
    validAssignment numTasks numResources a →
    mutate mr numTasks numResources a u nm f = some a2 →
    validAssignment numTasks numResources a2) ∧
  (∀ (bs : BeliefSpace) (a : List ℤ) (ir u1 u2 : ℚ) (ng : ℕ) (sd : ℕ → ℕ)
      (gu : ℕ → ℚ) (cd : ℕ → ℕ) (a2 : List ℤ),
    wellFormedBelief numTasks numResources bs →
    validAssignment numTasks numResources a →
    influence bs a ir u1 u2 ng sd gu cd = some a2 →
    validAssignment numTasks numResources a2) ∧
  wellFormedBelief numTasks numResources (BeliefSpace.init numTasks numResources) ∧
  (∀ (bs : BeliefSpace) (population accepted : List Individual) (bs2 : BeliefSpace),
    wellFormedBelief numTasks numResources bs →
    (∀ ind ∈ accepted, validAssignment numTasks numResources ind.assignment) →
    bs.num_resources = numResources →
    BeliefSpace.update bs population accepted = some bs2 →
    wellFormedBelief numTasks numResources bs2)

/-- C4: with at least one resource, every assignment the core's own
operators produce — initial random individuals, crossover children (when
crossover returns at all), mutated individuals, belief-space-influenced
individuals — has one entry per task and only valid resource indices, for
every random stream; moreover the belief space starts well-formed and
`update` keeps it so, so the influence hypothesis is maintained. -/
theorem ca_operators_valid (numTasks numResources : ℕ) (hR : 1 ≤ numResources) :
    operatorsPreserveValidity numTasks numResources := by
  refine ⟨randomAssignment_valid numResources hR numTasks, ?_, ?_, ?_, ?_, ?_⟩
  · intro rate p1 p2 u r c1 c2 h1 h2 hc
    exact crossover_valid h1 h2 hc
  · intro mr a u nm f a2 ha h
    exact mutate_valid ha h
  · intro bs a ir u1 u2 ng sd gu cd a2 hwf ha h
    exact influence_valid hwf ha h
  · exact beliefInit_wf numTasks numResources
  · intro bs population accepted bs2 hwf hacc hres h
    exact beliefUpdate_wf hwf hacc hres h

/-- C4 witness: the bundle instantiated at 2 tasks and 1 resource. -/
theorem ca_operators_valid_witness : operatorsPreserveValidity 2 1 :=
  ca_operators_valid 2 1 (by decide)

/-- The optimizer driver state carried across generations by
`CulturalAlgorithm.evolve`. -/
structure DriverState where
  population : List Individual
  best_individual : Individual
  belief_space : BeliefSpace
  best_fitness_history : List ℚ
  avg_fitness_history : List ℚ
  generation : ℕ
deriving DecidableEq

/-- The deterministic tail of `CulturalAlgorithm.evolve` (lines 308-326):
the freshly generated generation, after the `[:population_size]` cut and the
descending sort, is taken as the input `sortedPop` — the stochastic
construction of that list (selection, crossover, influence, mutation) is
abstracted as an arbitrary input, which covers every random stream.
The tail reads `population[0]` (raising on an empty population), bumps the
best-ever individual on strict improvement, updates the belief space with
the `max(1, int(population_size * acceptance_rate))` elite prefix, and
appends to both history sequences. -/
def evolveRecord (population_size : ℤ) (acceptance_rate : ℚ)
    (st : DriverState) (sortedPop : List Individual) : Option DriverState :=
  sortedPop.head?.bind fun top =>
    let best2 :=
      if st.best_individual.fitness < top.fitness then top else st.best_individual
    let num_accepted := (max 1 (pyInt ((population_size : ℚ) * acceptance_rate))).toNat
    (BeliefSpace.update st.belief_space sortedPop (sortedPop.take num_accepted)).bind
      fun belief2 =>
        some { population := sortedPop
               best_individual := best2
               belief_space := belief2
               best_fitness_history := st.best_fitness_history ++ [best2.fitness]
               avg_fitness_history := st.avg_fitness_history ++
                 [(sortedPop.map Individual.fitness).sum / (sortedPop.length : ℚ)]
               generation := st.generation + 1 }

/-- Iterated generations: one sorted population input per generation. -/
def runGens (population_size : ℤ) (acceptance_rate : ℚ) :
    DriverState → List (List Individual) → Option DriverState
  | st, [] => some st
  | st, pop :: rest =>
    (evolveRecord population_size acceptance_rate st pop).bind fun st2 =>
      runGens population_size acceptance_rate st2 rest

theorem situationalFold_le (accepted : List Individual) :
    ∀ (p : Option Individual × WithBot ℚ),
      p.2 ≤ (accepted.foldl situationalStep p).2 := by
  induction accepted with
  | nil => intro p; exact le_refl _
  | cons x rest ih =>
    intro p
    rw [List.foldl_cons]
    refine le_trans ?_ (ih (situationalStep p x))
    unfold situationalStep
    split
    · exact le_of_lt (by assumption)
    · exact le_refl _

theorem beliefUpdate_best_mono {bs : BeliefSpace} {pop acc : List Individual}
    {bs2 : BeliefSpace} (h : BeliefSpace.update bs pop acc = some bs2) :
    bs.best_fitness ≤ bs2.best_fitness := by
  unfold BeliefSpace.update at h
  by_cases hemp : acc = []
  · rw [if_pos hemp] at h
    cases h
    exact le_refl _
  · rw [if_neg hemp] at h
    simp only [Option.bind_eq_some] at h
    obtain ⟨ranges2, _, h⟩ := h
    have hle := situationalFold_le acc (bs.best_individual, bs.best_fitness)
    by_cases hpop : pop = []
    · rw [if_pos hpop] at h
      cases h
      exact hle
    · rw [if_neg hpop] at h
      simp only [Option.bind_eq_some] at h
      obtain ⟨usage, _, h⟩ := h
      cases h
      exact hle

theorem evolveRecord_spec {ps : ℤ} {ar : ℚ} {st : DriverState}
    {pop : List Individual} {st2 : DriverState}
    (h : evolveRecord ps ar st pop = some st2) :
    st.best_individual.fitness ≤ st2.best_individual.fitness ∧
    st.belief_space.best_fitness ≤ st2.belief_space.best_fitness ∧
    st2.best_fitness_history =
      st.best_fitness_history ++ [st2.best_individual.fitness] := by
  unfold evolveRecord at h
  rw [Option.bind_eq_some] at h
  obtain ⟨top, _, h⟩ := h
  rw [Option.bind_eq_some] at h
  obtain ⟨belief2, hupd, h⟩ := h
  cases h
  refine ⟨?_, beliefUpdate_best_mono hupd, rfl⟩
  split
  · exact le_of_lt (by assumption)
  · exact le_refl _

theorem runGens_chain (ps : ℤ) (ar : ℚ) :
    ∀ (pops : List (List Individual)) (st st2 : DriverState),
      runGens ps ar st pops = some st2 →
      List.Chain' (· ≤ ·) st.best_fitness_history →
      (∀ x ∈ st.best_fitness_history.getLast?, x ≤ st.best_individual.fitness) →
      List.Chain' (· ≤ ·) st2.best_fitness_history ∧
      (∀ x ∈ st2.best_fitness_history.getLast?, x ≤ st2.best_individual.fitness) := by
  intro pops
  induction pops with
  | nil =>
    intro st st2 h hc hl
    cases h
    exact ⟨hc, hl⟩
  | cons pop rest ih =>
    intro st st2 h hc hl
    unfold runGens at h
    rw [Option.bind_eq_some] at h
    obtain ⟨stm, hev, h⟩ := h
    obtain ⟨hb, _, hh⟩ := evolveRecord_spec hev
    refine ih _ _ h ?_ ?_
    · rw [hh, List.chain'_append]
      refine ⟨hc, List.chain'_singleton _, ?_⟩
      intro x hx y hy
      simp only [List.head?_cons, Option.mem_def, Option.some.injEq] at hy
      subst hy
      exact le_trans (hl x hx) hb
    · rw [hh]
      intro x hx
      rw [List.getLast?_concat] at hx
      simp only [Option.mem_def, Option.some.injEq] at hx
      subst hx
      exact le_refl _

/-- C3: for every run configuration and every random stream (modelled as the
arbitrary per-generation sorted populations fed to the deterministic tail of
`evolve`), one generation never decreases the driver's best-ever fitness nor
the belief space's stored best fitness, each generation appends the current
best to `best_fitness_history`, and over any complete run started with an
empty history that history is non-decreasing from each generation to the
next. -/
theorem ca_best_fitness_monotone :
    (∀ (ps : ℤ) (ar : ℚ) (st : DriverState) (pop : List Individual)
        (st2 : DriverState),
      evolveRecord ps ar st pop = some st2 →
      st.best_individual.fitness ≤ st2.best_individual.fitness ∧
      st.belief_space.best_fitness ≤ st2.belief_space.best_fitness ∧
      st2.best_fitness_history =
        st.best_fitness_history ++ [st2.best_individual.fitness]) ∧
    (∀ (ps : ℤ) (ar : ℚ) (st : DriverState) (pops : List (List Individual))
        (st2 : DriverState),
      st.best_fitness_history = [] →
      runGens ps ar st pops = some st2 →
      List.Chain' (· ≤ ·) st2.best_fitness_history) := by
  constructor
  · intro ps ar st pop st2 h
    exact evolveRecord_spec h
  · intro ps ar st pops st2 hemp h
    refine (runGens_chain ps ar pops st st2 h ?_ ?_).1
    · rw [hemp]; exact List.chain'_nil
    · rw [hemp]; intro x hx; cases hx

/-- A concrete one-individual generation used to exercise the driver tail. -/
def popA : List Individual := [⟨[0], 1/2⟩]

/-- A concrete pre-generation driver state on a 1-task/1-resource problem. -/
def driverStateA : DriverState where
  population := []
  best_individual := ⟨[0], 0⟩
  belief_space := BeliefSpace.init 1 1
  best_fitness_history := []
  avg_fitness_history := []
  generation := 0

/-- The belief space after one update from `popA`. -/
def beliefB : BeliefSpace where
  num_tasks := 1
  num_resources := 1
  best_individual := some ⟨[0], 1/2⟩
  best_fitness := ((1/2 : ℚ) : WithBot ℚ)
  normative_ranges := [⟨0, 0, [0]⟩]
  avg_fitness := 1/2
  fitness_variance := 0
  resource_usage := [1]

/-- The driver state after one generation from `driverStateA` on `popA`. -/
def driverStateB : DriverState where
  population := popA
  best_individual := ⟨[0], 1/2⟩
  belief_space := beliefB
  best_fitness_history := [1/2]
  avg_fitness_history := [1/2]
  generation := 1

theorem evolveRecord_concrete :
    evolveRecord 1 1 driverStateA popA = some driverStateB := by
  norm_num [evolveRecord, driverStateA, popA, driverStateB, beliefB,
    BeliefSpace.update, BeliefSpace.init, updateNormLoop, tallyCounts, incrAt,
    preferredOf, countsEnum, rangeZ, situationalStep, resourceUsageLoop,
    usageAdd, pyResolve, pyInt, List.max?, List.filter, List.take]

/-- C3 witness: one concrete generation on a 1-task/1-resource problem, and
the one-generation run it forms. -/
theorem ca_best_fitness_monotone_witness :
    (driverStateA.best_individual.fitness ≤ driverStateB.best_individual.fitness ∧
      driverStateA.belief_space.best_fitness ≤ driverStateB.belief_space.best_fitness ∧
      driverStateB.best_fitness_history =
        driverStateA.best_fitness_history ++ [driverStateB.best_individual.fitness]) ∧
    List.Chain' (· ≤ ·) driverStateB.best_fitness_history := by
  constructor
  · exact ca_best_fitness_monotone.1 1 1 driverStateA popA driverStateB
      evolveRecord_concrete
  · refine ca_best_fitness_monotone.2 1 1 driverStateA [popA] driverStateB rfl ?_
    simp [runGens, evolveRecord_concrete]

theorem lookupId_append_of_eq_some {l1 : List (ℤ × ℕ)} {k : ℤ} {v : ℕ}
    (h : lookupId l1 k = some v) (l2 : List (ℤ × ℕ)) :
    lookupId (l1 ++ l2) k = some v := by
  induction l1 with
  | nil => cases h
  | cons p rest ih =>
    obtain ⟨pk, pv⟩ := p
    rw [List.cons_append]
    simp only [lookupId] at h ⊢
    by_cases hk : k = pk
    · rw [if_pos hk] at h ⊢
      exact h
    · rw [if_neg hk] at h ⊢
      exact ih h

theorem lookupId_append_of_eq_none {l1 : List (ℤ × ℕ)} {k : ℤ}
    (h : lookupId l1 k = none) (l2 : List (ℤ × ℕ)) :
    lookupId (l1 ++ l2) k = lookupId l2 k := by
  induction l1 with
  | nil => rfl
  | cons p rest ih =>
    obtain ⟨pk, pv⟩ := p
    rw [List.cons_append]
    simp only [lookupId] at h ⊢
    by_cases hk : k = pk
    · rw [if_pos hk] at h
      cases h
    · rw [if_neg hk] at h ⊢
      exact ih h

theorem lookupId_eq_none_of_not_mem {l : List (ℤ × ℕ)} {k : ℤ}
    (h : k ∉ l.map Prod.fst) : lookupId l k = none := by
  induction l with
  | nil => rfl
  | cons p rest ih =>
    obtain ⟨pk, pv⟩ := p
    rw [List.map_cons, List.mem_cons] at h
    push_neg at h
    simp only [lookupId]
    rw [if_neg h.1]
    exact ih h.2

theorem idPairs_map_fst : ∀ (ts : List Task) (n : ℕ),
    (idPairs n ts).map Prod.fst = ts.map Task.id := by
  intro ts
  induction ts with
  | nil => intro n; rfl
  | cons t rest ih =>
    intro n
    unfold idPairs
    rw [List.map_cons, List.map_cons, ih]

theorem lookupId_idPairs_rev :
    ∀ (ts : List Task), (ts.map Task.id).Nodup →
      ∀ (n i : ℕ) (hi : i < ts.length),
        lookupId ((idPairs n ts).reverse) (ts.get ⟨i, hi⟩).id = some (n + i) := by
  intro ts
  induction ts with
  | nil =>
    intro _ n i hi
    cases hi
  | cons t rest ih =>
    intro hnd n i hi
    rw [List.map_cons, List.nodup_cons] at hnd
    obtain ⟨hnotin, hnd2⟩ := hnd
    have hsplit : (idPairs n (t :: rest)).reverse
        = (idPairs (n + 1) rest).reverse ++ [(t.id, n)] := by
      show ((t.id, n) :: idPairs (n + 1) rest).reverse = _
      rw [List.reverse_cons]
    cases i with
    | zero =>
      have hnone : lookupId ((idPairs (n + 1) rest).reverse) t.id = none := by
        refine lookupId_eq_none_of_not_mem ?_
        rw [List.map_reverse, List.mem_reverse, idPairs_map_fst]
        exact hnotin
      rw [hsplit]
      show lookupId _ (t.id) = some (n + 0)
      rw [lookupId_append_of_eq_none hnone]
      unfold lookupId
      rw [if_pos rfl]
      simp
    | succ j =>
      have hj : j < rest.length := by
        simpa using hi
      have hrec := ih hnd2 (n + 1) j hj
      rw [hsplit]
      show lookupId _ ((rest.get ⟨j, hj⟩).id) = _
      rw [lookupId_append_of_eq_some hrec]
      congr 1
      omega

theorem lookupId_taskIdToIndex {tasks : List Task}
    (hids : (tasks.map Task.id).Nodup) (i : ℕ) (hi : i < tasks.length) :
    lookupId (taskIdToIndex tasks) (tasks.get ⟨i, hi⟩).id = some i := by
  unfold taskIdToIndex
  have := lookupId_idPairs_rev tasks hids 0 i hi
  simpa using this

theorem pyResolve_lt {len : ℕ} {i : ℤ} {j : ℕ} (h : pyResolve len i = some j) :
    j < len := by
  unfold pyResolve at h
  split at h
  · split at h
    · rename_i h1 h2
      have : j = i.toNat := by simpa using h.symm
      omega
    · cases h
  · split at h
    · rename_i h1 h2
      have : j = (i + (len : ℤ)).toNat := by simpa using h.symm
      omega
    · cases h

theorem pyResolve_isSome_of_range {len : ℕ} {i : ℤ}
    (h0 : 0 ≤ i) (h1 : i < (len : ℤ)) : pyResolve len i = some i.toNat := by
  unfold pyResolve
  rw [if_pos h0, if_pos h1]

theorem taskContrib_isSome_iff {resources : List Resource} {a : List ℤ}
    {m : List (ℤ × ℕ)} {t : Task} {i : ℕ}
    (hlook : lookupId m t.id = some i)
    (hspeed : ∀ r ∈ resources, r.speed ≠ 0) :
    (taskContrib resources a m t).isSome ↔
      ∃ e, a.get? i = some e ∧ (pyResolve resources.length e).isSome := by
  unfold taskContrib
  rw [hlook, Option.some_bind]
  constructor
  · intro h
    cases hg : a.get? i with
    | none => rw [hg] at h; simp at h
    | some e =>
      rw [hg, Option.some_bind] at h
      refine ⟨e, rfl, ?_⟩
      unfold pyGet at h
      cases hr : pyResolve resources.length e with
      | none => rw [hr] at h; simp at h
      | some j => simp [hr]
  · rintro ⟨e, hg, hr⟩
    rw [hg, Option.some_bind]
    unfold pyGet
    cases hrr : pyResolve resources.length e with
    | none => rw [hrr] at hr; simp at hr
    | some j =>
      have hj := pyResolve_lt hrr
      have hget : resources.get? j = some (resources.get ⟨j, hj⟩) :=
        List.get?_eq_get hj
      rw [Option.some_bind, hget, Option.some_bind,
        if_neg (hspeed _ (List.get?_mem hget))]
      simp

theorem simAccum_isSome_iff {resources : List Resource} {a : List ℤ}
    {m : List (ℤ × ℕ)} :
    ∀ (ts : List Task) (acc : ℚ × ℚ),
      (simAccum resources a m acc ts).isSome ↔
        ∀ t ∈ ts, (taskContrib resources a m t).isSome := by
  intro ts
  induction ts with
  | nil =>
    intro acc
    simp [simAccum]
  | cons t rest ih =>
    intro acc
    unfold simAccum
    cases hc : taskContrib resources a m t with
    | none => simp [hc]
    | some c => simp [hc, ih]

theorem simAccum_congr {resources : List Resource} {m : List (ℤ × ℕ)}
    {a1 a2 : List ℤ} :
    ∀ (ts : List Task) (acc : ℚ × ℚ),
      (∀ t ∈ ts, taskContrib resources a1 m t = taskContrib resources a2 m t) →
      simAccum resources a1 m acc ts = simAccum resources a2 m acc ts := by
  intro ts
  induction ts with
  | nil => intro acc _; rfl
  | cons t rest ih =>
    intro acc hcong
    unfold simAccum
    rw [hcong t (List.mem_cons_self _ _)]
    cases hc : taskContrib resources a2 m t with
    | none => rfl
    | some c =>
      simp only [Option.some_bind]
      exact ih _ (fun t2 ht2 => hcong t2 (List.mem_cons_of_mem _ ht2))

theorem simulate_isSome_iff {tasks : List Task} {resources : List Resource}
    {a : List ℤ} (hids : (tasks.map Task.id).Nodup)
    (hspeed : ∀ r ∈ resources, r.speed ≠ 0) :
    (simulate tasks resources a).isSome ↔
      tasks.length ≤ a.length ∧
      ∀ e ∈ a.take tasks.length, (pyResolve resources.length e).isSome := by
  unfold simulate
  rw [simAccum_isSome_iff]
  constructor
  · intro H
    have hlen : tasks.length ≤ a.length := by
      by_contra hlt
      push_neg at hlt
      have hi : a.length < tasks.length := hlt
      have ht := H (tasks.get ⟨a.length, hi⟩) (List.get_mem _ _ _)
      rw [taskContrib_isSome_iff (lookupId_taskIdToIndex hids _ hi) hspeed] at ht
      obtain ⟨e, hg, _⟩ := ht
      rw [List.get?_eq_none.mpr (le_refl _)] at hg
      cases hg
    refine ⟨hlen, ?_⟩
    intro e he
    obtain ⟨i, hgi⟩ := List.mem_iff_get?.mp he
    have hilt : i < tasks.length := by
      by_contra hge
      push_neg at hge
      rw [List.get?_eq_none.mpr (by simp; omega)] at hgi
      cases hgi
    have hgi2 : a.get? i = some e := by
      rw [← List.get?_take hilt]
      exact hgi
    have ht := H (tasks.get ⟨i, hilt⟩) (List.get_mem _ _ _)
    rw [taskContrib_isSome_iff (lookupId_taskIdToIndex hids _ hilt) hspeed] at ht
    obtain ⟨e2, hg2, hr2⟩ := ht
    rw [hgi2] at hg2
    cases hg2
    exact hr2
  · rintro ⟨hlen, hentries⟩
    intro t ht
    obtain ⟨⟨i, hilt⟩, rfl⟩ := List.mem_iff_get.mp ht
    rw [taskContrib_isSome_iff (lookupId_taskIdToIndex hids _ hilt) hspeed]
    have hia : i < a.length := lt_of_lt_of_le hilt hlen
    have hgi : a.get? i = some (a.get ⟨i, hia⟩) := List.get?_eq_get hia
    refine ⟨a.get ⟨i, hia⟩, hgi, ?_⟩
    refine hentries _ (List.mem_iff_get?.mpr ⟨i, ?_⟩)
    rw [List.get?_take hilt]
    exact hgi

/-- C6 counterexample: `simulate` does not fail on every malformed
assignment. With one task and one resource, the assignment [0, 0] is longer
than the task list yet simulates fine (the extra entry is silently ignored),
and the out-of-range entry -1 is silently resolved by Python negative
indexing to the last resource instead of failing. -/
theorem simulate_malformed_accepted :
    simulate [⟨0, 100⟩] [⟨0, 10, 5⟩] [0, 0] = some (10, 50) ∧
    simulate [⟨0, 100⟩] [⟨0, 10, 5⟩] [-1] = some (10, 50) := by
  constructor <;>
    norm_num [simulate, simAccum, taskContrib, taskIdToIndex, idPairs, lookupId,
      pyGet, pyResolve]

/-- C6 amended: for distinct task ids and non-zero speeds, `simulate` raises
exactly when the assignment is shorter than the task list or one of its
first `len(tasks)` entries fails Python index resolution against the
resource list (that is, lies outside `[-len(resources), len(resources)-1]`);
entries beyond the task count are ignored — appending anything to a
long-enough assignment never changes the result — and negative in-range
entries are resolved from the end rather than rejected. -/
theorem simulate_error_characterization
    (tasks : List Task) (resources : List Resource) (a : List ℤ)
    (hids : (tasks.map Task.id).Nodup)
    (hspeed : ∀ r ∈ resources, r.speed ≠ 0) :
    ((simulate tasks resources a).isSome ↔
      tasks.length ≤ a.length ∧
      ∀ e ∈ a.take tasks.length, (pyResolve resources.length e).isSome) ∧
    (tasks.length ≤ a.length → ∀ extra : List ℤ,
      simulate tasks resources (a ++ extra) = simulate tasks resources a) := by
  refine ⟨simulate_isSome_iff hids hspeed, ?_⟩
  intro hlen extra
  unfold simulate
  refine simAccum_congr tasks (0, 0) ?_
  intro t ht
  obtain ⟨⟨i, hilt⟩, rfl⟩ := List.mem_iff_get.mp ht
  unfold taskContrib
  rw [lookupId_taskIdToIndex hids _ hilt, Option.some_bind, Option.some_bind]
  have hia : i < a.length := lt_of_lt_of_le hilt hlen
  rw [List.get?_append hia]

/-- C6 witness: the characterization applied to the concrete one-task
instance with the over-long assignment [0, 0]. -/
theorem simulate_error_characterization_witness :
    ((simulate [⟨0, 100⟩] [⟨0, 10, 5⟩] [(0 : ℤ), 0]).isSome ↔
      ([(⟨0, 100⟩ : Task)].length ≤ [(0 : ℤ), 0].length ∧
        ∀ e ∈ [(0 : ℤ), 0].take [(⟨0, 100⟩ : Task)].length,
          (pyResolve [(⟨0, 10, 5⟩ : Resource)].length e).isSome)) ∧
    ([(⟨0, 100⟩ : Task)].length ≤ [(0 : ℤ), 0].length → ∀ extra : List ℤ,
      simulate [⟨0, 100⟩] [⟨0, 10, 5⟩] ([(0 : ℤ), 0] ++ extra)
        = simulate [⟨0, 100⟩] [⟨0, 10, 5⟩] [(0 : ℤ), 0]) :=
  simulate_error_characterization [⟨0, 100⟩] [⟨0, 10, 5⟩] [0, 0]
    (by decide) (by norm_num)

theorem set_get?_eq {α : Type} :
    ∀ (l : List α) (k : ℕ) (x : α), l.get? k = some x → l.set k x = l := by
  intro l
  induction l with
  | nil => intro k x h; cases h
  | cons y rest ih =>
    intro k x h
    cases k with
    | zero =>
      simp only [List.get?] at h
      cases h
      rfl
    | succ j =>
      simp only [List.get?] at h
      simp only [List.set]
      rw [ih j x h]

theorem idPairs_congr :
    ∀ (ts1 ts2 : List Task), ts1.map Task.id = ts2.map Task.id →
      ∀ n, idPairs n ts1 = idPairs n ts2 := by
  intro ts1
  induction ts1 with
  | nil =>
    intro ts2 h n
    cases ts2 with
    | nil => rfl
    | cons t2 rest2 => simp at h
  | cons t rest ih =>
    intro ts2 h n
    cases ts2 with
    | nil => simp at h
    | cons t2 rest2 =>
      simp only [List.map_cons, List.cons.injEq] at h
      unfold idPairs
      rw [h.1, ih rest2 h.2 (n + 1)]

theorem taskIdToIndex_set {tasks : List Task} {k : ℕ} (hk : k < tasks.length)
    (L2 : ℚ) :
    taskIdToIndex (tasks.set k ⟨(tasks.getD k ⟨0, 0⟩).id, L2⟩)
      = taskIdToIndex tasks := by
  unfold taskIdToIndex
  rw [idPairs_congr _ tasks ?_ 0]
  rw [List.map_set]
  refine set_get?_eq _ _ _ ?_
  rw [List.get?_map, List.getD_eq_get _ _ hk, List.get?_eq_get hk]
  rfl

theorem forall2_self {R : Task → Task → Prop} (h : ∀ t, R t t) :
    ∀ l : List Task, List.Forall₂ R l l := by
  intro l
  induction l with
  | nil => exact List.Forall₂.nil
  | cons t rest ih => exact List.Forall₂.cons (h t) ih

theorem forall2_set {R : Task → Task → Prop} (hrefl : ∀ t, R t t) :
    ∀ (l : List Task) (k : ℕ) (b : Task), k < l.length →
      R (l.getD k ⟨0, 0⟩) b → List.Forall₂ R l (l.set k b) := by
  intro l
  induction l with
  | nil =>
    intro k b hk
    exact absurd hk (Nat.not_lt_zero k)
  | cons x rest ih =>
    intro k b hk hR
    cases k with
    | zero => exact List.Forall₂.cons hR (forall2_self hrefl rest)
    | succ j =>
      exact List.Forall₂.cons (hrefl x) (ih j b (by simpa using hk) hR)

theorem simAccum_mono {resources : List Resource} {a : List ℤ}
    {m : List (ℤ × ℕ)} :
    ∀ {ts1 ts2 : List Task},
      List.Forall₂ (fun t1 t2 => ∀ c1, taskContrib resources a m t1 = some c1 →
        ∃ c2, taskContrib resources a m t2 = some c2 ∧
          c1.1 ≤ c2.1 ∧ c1.2 ≤ c2.2) ts1 ts2 →
      ∀ (acc1 acc2 : ℚ × ℚ), acc1.1 ≤ acc2.1 → acc1.2 ≤ acc2.2 →
      ∀ p1, simAccum resources a m acc1 ts1 = some p1 →
        ∃ p2, simAccum resources a m acc2 ts2 = some p2 ∧
          p1.1 ≤ p2.1 ∧ p1.2 ≤ p2.2 := by
  intro ts1 ts2 hrel
  induction hrel with
  | nil =>
    intro acc1 acc2 h1 h2 p1 hp
    cases hp
    exact ⟨acc2, rfl, h1, h2⟩
  | @cons t1 t2 l1 l2 hpair hrest ih =>
    intro acc1 acc2 h1 h2 p1 hp
    unfold simAccum at hp ⊢
    rw [Option.bind_eq_some] at hp
    obtain ⟨c1, hc1, hp⟩ := hp
    obtain ⟨c2, hc2, hcle1, hcle2⟩ := hpair c1 hc1
    rw [hc2, Option.some_bind]
    exact ih _ _ (add_le_add h1 hcle1) (add_le_add h2 hcle2) p1 hp

theorem simAccum_ge_acc {resources : List Resource} {a : List ℤ}
    {m : List (ℤ × ℕ)} :
    ∀ (ts : List Task) (acc p : ℚ × ℚ),
      (∀ t ∈ ts, ∀ c, taskContrib resources a m t = some c →
        0 ≤ c.1 ∧ 0 ≤ c.2) →
      simAccum resources a m acc ts = some p → acc.1 ≤ p.1 ∧ acc.2 ≤ p.2 := by
  intro ts
  induction ts with
  | nil =>
    intro acc p _ h
    cases h
    exact ⟨le_refl _, le_refl _⟩
  | cons t rest ih =>
    intro acc p hnn h
    unfold simAccum at h
    rw [Option.bind_eq_some] at h
    obtain ⟨c, hc, h⟩ := h
    obtain ⟨hc1, hc2⟩ := hnn t (List.mem_cons_self _ _) c hc
    have := ih _ p (fun t2 ht2 => hnn t2 (List.mem_cons_of_mem _ ht2)) h
    constructor <;> [skip; skip] <;> simp only at this <;> linarith [this.1, this.2]

theorem pyGet_mem {α : Type} {l : List α} {i : ℤ} {x : α}
    (h : pyGet l i = some x) : x ∈ l := by
  unfold pyGet at h
  rw [Option.bind_eq_some] at h
  obtain ⟨j, _, hg⟩ := h
  exact List.get?_mem hg

theorem taskContrib_shape {resources : List Resource} {a : List ℤ}
    {m : List (ℤ × ℕ)} {t : Task} {c : ℚ × ℚ}
    (h : taskContrib resources a m t = some c) :
    ∃ i e r, lookupId m t.id = some i ∧ a.get? i = some e ∧
      pyGet resources e = some r ∧ r ∈ resources ∧ r.speed ≠ 0 ∧
      c = (t.length / r.speed, t.length / r.speed * r.cost) := by
  unfold taskContrib at h
  rw [Option.bind_eq_some] at h
  obtain ⟨i, hl, h⟩ := h
  rw [Option.bind_eq_some] at h
  obtain ⟨e, hg, h⟩ := h
  rw [Option.bind_eq_some] at h
  obtain ⟨r, hr, h⟩ := h
  by_cases hs : r.speed = 0
  · rw [if_pos hs] at h
    cases h
  · rw [if_neg hs] at h
    cases h
    exact ⟨i, e, r, hl, hg, hr, pyGet_mem hr, hs, rfl⟩

/-- C9: on every instance with distinct task ids, positive task lengths,
positive speeds, non-negative cost rates and a valid assignment, `simulate`
succeeds with non-negative totals, all three objective fitnesses are
strictly positive, raising one task's length (position `k` set to any
`L2` at least the old length) cannot decrease either total and cannot
increase the `time` or `weighted` fitness; and the fitness formulas are
strictly decreasing in their raw metric. -/
theorem fitness_positive_monotone
    (tasks : List Task) (resources : List Resource) (a : List ℤ)
    (k : ℕ) (L2 : ℚ)
    (hk : k < tasks.length)
    (hids : (tasks.map Task.id).Nodup)
    (hval : validAssignment tasks.length resources.length a)
    (hlen : ∀ t ∈ tasks, 0 < t.length)
    (hspeed : ∀ r ∈ resources, 0 < r.speed)
    (hcost : ∀ r ∈ resources, 0 ≤ r.cost)
    (hL : (tasks.getD k ⟨0, 0⟩).length ≤ L2) :
    (∃ T C T2 C2,
      simulate tasks resources a = some (T, C) ∧
      simulate (tasks.set k ⟨(tasks.getD k ⟨0, 0⟩).id, L2⟩) resources a
        = some (T2, C2) ∧
      0 ≤ T ∧ 0 ≤ C ∧ T ≤ T2 ∧ C ≤ C2 ∧
      (∃ f, evaluateFitnessFrom "cost" T C = some f ∧ 0 < f) ∧
      (∃ f, evaluateFitnessFrom "time" T C = some f ∧ 0 < f) ∧
      (∃ f, evaluateFitnessFrom "weighted" T C = some f ∧ 0 < f) ∧
      (∀ f f2, evaluateFitnessFrom "time" T C = some f →
        evaluateFitnessFrom "time" T2 C2 = some f2 → f2 ≤ f) ∧
      (∀ f f2, evaluateFitnessFrom "weighted" T C = some f →
        evaluateFitnessFrom "weighted" T2 C2 = some f2 → f2 ≤ f)) ∧
    (∀ t1 t2 c : ℚ, 0 ≤ t1 → t1 < t2 → ∀ f1 f2,
      evaluateFitnessFrom "time" t1 c = some f1 →
      evaluateFitnessFrom "time" t2 c = some f2 → f2 < f1) ∧
    (∀ c1 c2 t : ℚ, 0 ≤ c1 → c1 < c2 → ∀ f1 f2,
      evaluateFitnessFrom "cost" t c1 = some f1 →
      evaluateFitnessFrom "cost" t c2 = some f2 → f2 < f1) ∧
    (∀ t1 t2 c1 c2 : ℚ, 0 ≤ t1 → 0 ≤ c1 → t1 < t2 → c1 ≤ c2 → ∀ f1 f2,
      evaluateFitnessFrom "weighted" t1 c1 = some f1 →
      evaluateFitnessFrom "weighted" t2 c2 = some f2 → f2 < f1) := by
  have hspeedne : ∀ r ∈ resources, r.speed ≠ 0 :=
    fun r hr => ne_of_gt (hspeed r hr)
  obtain ⟨hlena, hentr⟩ := hval
  refine ⟨?_, ?_, ?_, ?_⟩
  · have hsome : (simulate tasks resources a).isSome := by
      rw [simulate_isSome_iff hids hspeedne]
      refine ⟨le_of_eq hlena.symm, ?_⟩
      intro e he
      obtain ⟨h0, h1⟩ := hentr e (List.take_subset _ _ he)
      rw [pyResolve_isSome_of_range h0 h1]
      rfl
    obtain ⟨p, hp⟩ := Option.isSome_iff_exists.mp hsome
    obtain ⟨T, C⟩ := p
    unfold simulate at hp
    have hnn : ∀ t ∈ tasks, ∀ c,
        taskContrib resources a (taskIdToIndex tasks) t = some c →
        0 ≤ c.1 ∧ 0 ≤ c.2 := by
      intro t ht c hc
      obtain ⟨i, e, r, _, _, _, hrmem, _, hceq⟩ := taskContrib_shape hc
      subst hceq
      have h1 : 0 ≤ t.length / r.speed :=
        le_of_lt (div_pos (hlen t ht) (hspeed r hrmem))
      exact ⟨h1, mul_nonneg h1 (hcost r hrmem)⟩
    have hTC := simAccum_ge_acc tasks (0, 0) (T, C) hnn hp
    simp only at hTC
    have hpair : ∀ c1,
        taskContrib resources a (taskIdToIndex tasks) (tasks.getD k ⟨0, 0⟩)
          = some c1 →
        ∃ c2, taskContrib resources a (taskIdToIndex tasks)
            ⟨(tasks.getD k ⟨0, 0⟩).id, L2⟩ = some c2 ∧
          c1.1 ≤ c2.1 ∧ c1.2 ≤ c2.2 := by
      intro c1 hc1
      obtain ⟨i, e, r, hl, hg, hr, hrmem, hs, hceq⟩ := taskContrib_shape hc1
      refine ⟨(L2 / r.speed, L2 / r.speed * r.cost), ?_, ?_, ?_⟩
      · unfold taskContrib
        show (lookupId (taskIdToIndex tasks) (tasks.getD k ⟨0, 0⟩).id).bind _
          = _
        rw [hl, Option.some_bind, hg, Option.some_bind, hr, Option.some_bind,
          if_neg hs]
      · subst hceq
        exact (div_le_div_right (hspeed r hrmem)).mpr hL
      · subst hceq
        exact mul_le_mul_of_nonneg_right
          ((div_le_div_right (hspeed r hrmem)).mpr hL) (hcost r hrmem)
    have hrel := @forall2_set
      (fun t1 t2 => ∀ c1,
        taskContrib resources a (taskIdToIndex tasks) t1 = some c1 →
        ∃ c2, taskContrib resources a (taskIdToIndex tasks) t2 = some c2 ∧
          c1.1 ≤ c2.1 ∧ c1.2 ≤ c2.2)
      (fun t c1 hc1 => ⟨c1, hc1, le_refl _, le_refl _⟩)
      tasks k ⟨(tasks.getD k ⟨0, 0⟩).id, L2⟩ hk hpair
    obtain ⟨p2, hp2, hle1, hle2⟩ :=
      simAccum_mono hrel (0, 0) (0, 0) (le_refl _) (le_refl _) (T, C) hp
    obtain ⟨T2, C2⟩ := p2
    simp only at hle1 hle2
    refine ⟨T, C, T2, C2, ?_, ?_, hTC.1, hTC.2, hle1, hle2, ?_, ?_, ?_, ?_, ?_⟩
    · unfold simulate
      exact hp
    · unfold simulate
      rw [taskIdToIndex_set hk L2]
      exact hp2
    · exact ⟨1 / (1 + C), rfl, one_div_pos.mpr (by linarith [hTC.2])⟩
    · exact ⟨1 / (1 + T), rfl, one_div_pos.mpr (by linarith [hTC.1])⟩
    · refine ⟨1 / (1 + 0.4 * (T / 1000) + 0.6 * (C / 10000)), rfl,
        one_div_pos.mpr ?_⟩
      nlinarith [hTC.1, hTC.2]
    · intro f f2 hf hf2
      rw [show evaluateFitnessFrom "time" T C = some (1 / (1 + T)) from rfl]
        at hf
      rw [show evaluateFitnessFrom "time" T2 C2 = some (1 / (1 + T2)) from rfl]
        at hf2
      cases hf
      cases hf2
      exact one_div_le_one_div_of_le (by linarith [hTC.1]) (by linarith)
    · intro f f2 hf hf2
      rw [show evaluateFitnessFrom "weighted" T C
          = some (1 / (1 + 0.4 * (T / 1000) + 0.6 * (C / 10000))) from rfl]
        at hf
      rw [show evaluateFitnessFrom "weighted" T2 C2
          = some (1 / (1 + 0.4 * (T2 / 1000) + 0.6 * (C2 / 10000))) from rfl]
        at hf2
      cases hf
      cases hf2
      exact one_div_le_one_div_of_le (by nlinarith [hTC.1, hTC.2])
        (by nlinarith [hTC.1, hTC.2, hle1, hle2])
  · intro t1 t2 c h0 hlt f1 f2 hf1 hf2
    rw [show evaluateFitnessFrom "time" t1 c = some (1 / (1 + t1)) from rfl]
      at hf1
    rw [show evaluateFitnessFrom "time" t2 c = some (1 / (1 + t2)) from rfl]
      at hf2
    cases hf1
    cases hf2
    exact one_div_lt_one_div_of_lt (by linarith) (by linarith)
  · intro c1 c2 t h0 hlt f1 f2 hf1 hf2
    rw [show evaluateFitnessFrom "cost" t c1 = some (1 / (1 + c1)) from rfl]
      at hf1
    rw [show evaluateFitnessFrom "cost" t c2 = some (1 / (1 + c2)) from rfl]
      at hf2
    cases hf1
    cases hf2
    exact one_div_lt_one_div_of_lt (by linarith) (by linarith)
  · intro t1 t2 c1 c2 h0t h0c hlt hle f1 f2 hf1 hf2
    rw [show evaluateFitnessFrom "weighted" t1 c1
        = some (1 / (1 + 0.4 * (t1 / 1000) + 0.6 * (c1 / 10000))) from rfl]
      at hf1
    rw [show evaluateFitnessFrom "weighted" t2 c2
        = some (1 / (1 + 0.4 * (t2 / 1000) + 0.6 * (c2 / 10000))) from rfl]
      at hf2
    cases hf1
    cases hf2
    exact one_div_lt_one_div_of_lt (by nlinarith) (by nlinarith)

/-- C9 witness: the instance with one task of length 1, one resource of
speed 1 and cost 1, assignment [0], and the length raised to 2. -/
theorem fitness_positive_monotone_witness :
    (∃ T C T2 C2,
      simulate [⟨0, 1⟩] [⟨0, 1, 1⟩] [0] = some (T, C) ∧
      simulate ([(⟨0, 1⟩ : Task)].set 0
          ⟨([(⟨0, 1⟩ : Task)].getD 0 ⟨0, 0⟩).id, 2⟩) [⟨0, 1, 1⟩] [0]
        = some (T2, C2) ∧
      0 ≤ T ∧ 0 ≤ C ∧ T ≤ T2 ∧ C ≤ C2 ∧
      (∃ f, evaluateFitnessFrom "cost" T C = some f ∧ 0 < f) ∧
      (∃ f, evaluateFitnessFrom "time" T C = some f ∧ 0 < f) ∧
      (∃ f, evaluateFitnessFrom "weighted" T C = some f ∧ 0 < f) ∧
      (∀ f f2, evaluateFitnessFrom "time" T C = some f →
        evaluateFitnessFrom "time" T2 C2 = some f2 → f2 ≤ f) ∧
      (∀ f f2, evaluateFitnessFrom "weighted" T C = some f →
        evaluateFitnessFrom "weighted" T2 C2 = some f2 → f2 ≤ f)) ∧
    (∀ t1 t2 c : ℚ, 0 ≤ t1 → t1 < t2 → ∀ f1 f2,
      evaluateFitnessFrom "time" t1 c = some f1 →
      evaluateFitnessFrom "time" t2 c = some f2 → f2 < f1) ∧
    (∀ c1 c2 t : ℚ, 0 ≤ c1 → c1 < c2 → ∀ f1 f2,
      evaluateFitnessFrom "cost" t c1 = some f1 →
      evaluateFitnessFrom "cost" t c2 = some f2 → f2 < f1) ∧
    (∀ t1 t2 c1 c2 : ℚ, 0 ≤ t1 → 0 ≤ c1 → t1 < t2 → c1 ≤ c2 → ∀ f1 f2,
      evaluateFitnessFrom "weighted" t1 c1 = some f1 →
      evaluateFitnessFrom "weighted" t2 c2 = some f2 → f2 < f1) :=
  fitness_positive_monotone [⟨0, 1⟩] [⟨0, 1, 1⟩] [0] 0 2
    (by decide) (by decide) (by decide)
    (by norm_num) (by norm_num) (by norm_num) (by norm_num [List.getD])

/-- C1: on the fixed instance of 3 tasks with lengths [120, 200, 150] and
resources (speed 10, cost 5), (speed 20, cost 8), the assignment [0, 1, 0]
simulates to total_time = 37 and total_cost = 215. -/
theorem simulate_fixed_instance :
    simulate [⟨0, 120⟩, ⟨1, 200⟩, ⟨2, 150⟩] [⟨0, 10, 5⟩, ⟨1, 20, 8⟩] [0, 1, 0]
      = some (37, 215) := by
  norm_num [simulate, simAccum, taskContrib, taskIdToIndex, idPairs, lookupId,
    pyGet, pyResolve]

/-- C2: for every pair of raw totals the fitness is `1/(1+cost)` under the
`cost` objective, `1/(1+time)` under `time`,
`1/(1 + 0.4*(time/1000) + 0.6*(cost/10000))` under `weighted`, and every
other selector fails (the `ValueError` branch). -/
theorem evaluate_fitness_objectives (t c : ℚ) :
    evaluateFitnessFrom "cost" t c = some (1 / (1 + c)) ∧
    evaluateFitnessFrom "time" t c = some (1 / (1 + t)) ∧
    evaluateFitnessFrom "weighted" t c
      = some (1 / (1 + 0.4 * (t / 1000) + 0.6 * (c / 10000))) ∧
    ∀ s : String, s ≠ "cost" → s ≠ "time" → s ≠ "weighted" →
      evaluateFitnessFrom s t c = none := by
  refine ⟨rfl, rfl, rfl, ?_⟩
  intro s h1 h2 h3
  simp [evaluateFitnessFrom, h1, h2, h3]

/-- C2 witness: the four branches evaluated at the totals (2, 3) and, for the
failure branch, the selector "makespan". -/
theorem evaluate_fitness_objectives_witness :
    evaluateFitnessFrom "cost" 2 3 = some (1 / 4) ∧
    evaluateFitnessFrom "makespan" 2 3 = none := by
  have h := evaluate_fitness_objectives 2 3
  refine ⟨?_, h.2.2.2 "makespan" (by decide) (by decide) (by decide)⟩
  rw [h.1]
  norm_num

/-- C7 evaluation: on a single-task instance, as soon as the crossover gate
passes (here the gate draw 1/2 is below the default rate 0.8), `crossover`
reaches `random.randint(1, 0)`, whose range is empty, and raises — so a run
with one task and one resource dies instead of returning `[0]`. -/
theorem crossover_single_task_raises :
    crossover (8/10) 1 [0] [0] (1/2) 0 = none := by
  norm_num [crossover, randint]

/-- C8 counterexample: with `crossover_rate = 0` and the admissible gate draw
`random.random() = 0`, the gate `random.random() > 0` fails, a real crossover
runs, and the children [0,0] and [1,1] differ from the parents [0,1], [1,0]. -/
theorem crossover_rate_zero_not_copies :
    crossover 0 2 [0, 1] [1, 0] 0 0 = some ([0, 0], [1, 1]) ∧
    (([0, 0], [1, 1]) : List ℤ × List ℤ) ≠ (([0, 1], [1, 0]) : List ℤ × List ℤ) := by
  constructor
  · norm_num [crossover, randint]
  · decide

/-- C8 amended: with `crossover_rate = 0`, for every pair of parents and every
random stream whose gate draw is strictly positive (every value of
`random.random()` except exactly 0.0), `crossover` returns the two parents'
assignments unchanged, as value copies. -/
theorem crossover_rate_zero_copies (numTasks : ℕ) (p1 p2 : List ℤ)
    (u : ℚ) (r : ℕ) (hu : 0 < u) :
    crossover 0 numTasks p1 p2 u r = some (p1, p2) := by
  unfold crossover
  rw [if_pos hu]

/-- C8 amended witness: concrete parents and a gate draw of 1/2. -/
theorem crossover_rate_zero_copies_witness :
    (0 : ℚ) < 1/2 ∧ crossover 0 2 [0, 1] [1, 0] (1/2) 0 = some ([0, 1], [1, 0]) :=
  ⟨by norm_num, crossover_rate_zero_copies 2 [0, 1] [1, 0] (1/2) 0 (by norm_num)⟩

/-- C10: an empty accepted list makes `BeliefSpace.update` return at once,
leaving the stored best individual and fitness, every normative preferred
set and the domain statistics untouched (in particular the statistics are
not recomputed from the supplied population); and the case is reachable,
since `initialize_population` slices the initial elite as
`population[:int(population_size * acceptance_rate)]` with no floor — e.g.
population_size 4 with acceptance_rate 1/5 yields the empty elite for every
population. -/
theorem belief_update_empty_accepted :
    (∀ (bs : BeliefSpace) (population : List Individual),
      BeliefSpace.update bs population [] = some bs) ∧
    (∀ (population : List Individual), initAccepted population 4 (1/5) = []) := by
  constructor
  · intro bs population
    simp [BeliefSpace.update]
  · intro population
    have h45 : pyInt (((4 : ℤ) : ℚ) * (1/5 : ℚ)) = 0 := by
      unfold pyInt
      rw [if_pos (by norm_num)]
      rw [show (((4 : ℤ) : ℚ)) * (1/5 : ℚ) = 4/5 by norm_num]
      rw [Int.floor_eq_zero_iff]
      constructor <;> norm_num
    unfold initAccepted pySliceTo
    rw [h45]
    simp

/-- C5 counterexample: constructing the optimizer with an out-of-range
configuration (population_size 0, mutation_rate 2, crossover_rate 3/2,
elitism_count -1, objective "bogus", max_generations -3, acceptance_rate 0,
influence_rate 5/4, empty task and resource lists) raises nothing: it
returns a fully built optimizer storing those very values. -/
theorem ca_init_accepts_invalid_config :
    (CulturalAlgorithm.init [] [] 0 2 (3/2) (-1) "bogus" (-3) 0 (5/4)).population_size = 0 ∧
    (CulturalAlgorithm.init [] [] 0 2 (3/2) (-1) "bogus" (-3) 0 (5/4)).mutation_rate = 2 ∧
    (CulturalAlgorithm.init [] [] 0 2 (3/2) (-1) "bogus" (-3) 0 (5/4)).objective = "bogus" ∧
    (CulturalAlgorithm.init [] [] 0 2 (3/2) (-1) "bogus" (-3) 0 (5/4)).tasks = [] ∧
    (CulturalAlgorithm.init [] [] 0 2 (3/2) (-1) "bogus" (-3) 0 (5/4)).resources = [] ∧
    (CulturalAlgorithm.init [] [] 0 2 (3/2) (-1) "bogus" (-3) 0 (5/4)).generation = 0 :=
  ⟨rfl, rfl, rfl, rfl, rfl, rfl⟩

/-- C5 amended: `__init__` performs no validation at all — for every
configuration, in range or not, construction succeeds and every
configuration value is stored verbatim (never clamped), with an empty
population, generation 0, empty histories, no best individual, and a fresh
belief space; no ConfigurationError exists in the code. -/
theorem ca_init_stores_config_verbatim (tasks : List Task)
    (resources : List Resource) (population_size : ℤ)
    (mutation_rate crossover_rate : ℚ) (elitism_count : ℤ) (objective : String)
    (max_generations : ℤ) (acceptance_rate influence_rate : ℚ) :
    CulturalAlgorithm.init tasks resources population_size mutation_rate
        crossover_rate elitism_count objective max_generations acceptance_rate
        influence_rate =
      { tasks := tasks, resources := resources,
        population_size := population_size, mutation_rate := mutation_rate,
        crossover_rate := crossover_rate, elitism_count := elitism_count,
        objective := objective, max_generations := max_generations,
        acceptance_rate := acceptance_rate, influence_rate := influence_rate,
        population := [], generation := 0, best_fitness_history := [],
        avg_fitness_history := [], best_individual := none,
        belief_space := BeliefSpace.init tasks.length resources.length } :=
  rfl

end CloudSim
